import Mathlib

/-!
Backlink Graph Synchronization Engine — verification.

Shallow embedding of the second-brain backlink engine:
* the Supabase edge function (`serve` handler): request validation,
  `[[label]]` extraction via `/\[\[([^\]]+)\]\]/g`, slug resolution over the
  owner's note directory, delete-then-insert edge reconciliation;
* the Garden component's display-time backlink extraction;
* the Dashboard component's most-linked-notes computation.

All machine operations on the store (delete / fetch / insert) are modelled by
explicit state passing over a list of edge rows; fallibility of each store
operation is an input (`StoreBehavior`).
-/

namespace SecondBrain

/-- Whitespace characters removed by JavaScript `String.prototype.trim`
(the common ASCII set; exotic Unicode space characters are not modelled). -/
def jsWhitespace (c : Char) : Bool :=
  c = ' ' || c = '\t' || c = '\n' || c = '\r' || c = '\x0b' || c = '\x0c'

/-- Model of JavaScript `.trim()` on a character list: drop leading and
trailing whitespace. -/
def trimChars (cs : List Char) : List Char :=
  ((cs.dropWhile jsWhitespace).reverse.dropWhile jsWhitespace).reverse

/-- The scanner realised by `content.matchAll(/\\[\\[([^\\]]+)\\]\\]/g)`: a
left-to-right, non-overlapping scan; at each position a match requires `[[`,
then a maximal nonempty run of characters other than `]`, then `]]`; the run
is the capture.  On a failed match attempt the scan advances one position; on
a success it resumes after the match.  The fuel argument (instantiated with
the list length by `extractAux`) makes the recursion structural; it never
runs out when it starts at the length. -/
def extractGo : Nat → List Char → List (List Char)
  | _, [] => []
  | 0, _ :: _ => []
  | fuel + 1, c :: cs =>
    if c = '[' ∧ cs.head? = some '[' then
      let rest := cs.tail
      let lab := rest.takeWhile (· ≠ ']')
      let rest2 := rest.dropWhile (· ≠ ']')
      if lab ≠ [] ∧ rest2.take 2 = [']', ']'] then
        lab :: extractGo fuel (rest2.drop 2)
      else extractGo fuel cs
    else extractGo fuel cs

/-- The capture list of the backlink regex over a character list. -/
def extractAux (cs : List Char) : List (List Char) :=
  extractGo cs.length cs

/-- Model of JavaScript `.trim()` on strings. -/
def jsTrim (s : String) : String :=
  (trimChars s.data).asString

/-- Raw captured labels of the backlink regex, as strings. -/
def rawBacklinks (content : String) : List String :=
  (extractAux content.data).map List.asString

/-- The Garden component's display-time extraction
(`match[1]`, no trimming). -/
def displayBacklinks (content : String) : List String :=
  rawBacklinks content

/-- The serve handler's extraction (`match[1].trim()`). -/
def serveBacklinks (content : String) : List String :=
  (rawBacklinks content).map jsTrim

/-! ## Data model: notes, edge rows, store behaviour -/

/-- A row of the `notes` table (the columns the engine reads). -/
structure NoteRow where
  id : String
  slug : String
  user_id : String
deriving DecidableEq, Repr

/-- A directory entry returned by `select("id, slug").eq("user_id", …)`. -/
structure NoteRec where
  id : String
  slug : String
deriving DecidableEq, Repr

/-- A row of the `links` table. -/
structure Edge where
  source_note_id : String
  target_note_id : String
deriving DecidableEq, Repr

/-- An element of the handler's `insertedLinks` response array. -/
structure InsertedLink where
  source_note_id : String
  target_note_id : String
  slug : String
deriving DecidableEq, Repr

/-- Which store operations fail during one call: the delete, the directory
fetch, and (per attempt index) each individual insert. -/
structure StoreBehavior where
  deleteFails : Bool
  fetchFails : Bool
  insertFails : Nat → Bool

/-- The behaviour in which every store operation succeeds. -/
def okBehavior : StoreBehavior :=
  { deleteFails := false, fetchFails := false, insertFails := fun _ => false }

/-- Outcome of one synchronization call: HTTP status, error message of the
response body (if any), the final `links` store, and the reported
`insertedLinks`. -/
structure SyncResult where
  status : Nat
  error : Option String
  links : List Edge
  insertedLinks : List InsertedLink
deriving DecidableEq, Repr

/-! ## Slug resolution (the `notes.find(...)` matcher) -/

/-- Model of the handler's `slug.replace` with the anchored single-hyphen
pattern: remove one trailing hyphen, if present. -/
def stripOneTrailingHyphen (s : String) : String :=
  match s.data.getLast? with
  | some '-' => s.data.dropLast.asString
  | _ => s

/-- The predicate of the `notes.find` call: the entry's slug equals the
label, or the label plus one hyphen, or the label with one trailing hyphen
removed. -/
def slugMatches (label : String) (n : NoteRec) : Bool :=
  n.slug == label || n.slug == label ++ "-" || n.slug == stripOneTrailingHyphen label

/-- `notes.find(...)` — first directory entry satisfying `slugMatches`. -/
def findTarget (label : String) (notes : List NoteRec) : Option NoteRec :=
  notes.find? (slugMatches label)

/-- The combined resolution step of the insert loop: find the first matching
entry, and drop it again if it is the resolving note itself
(`targetNote && targetNote.id !== note_id`). -/
def resolveTarget (note_id : String) (notes : List NoteRec) (label : String) :
    Option String :=
  match findTarget label notes with
  | some t => if t.id ≠ note_id then some t.id else none
  | none => none

/-- The `(target id, label)` pairs the insert loop attempts to insert, in
extraction order, one per raw resolvable non-self label occurrence (the loop
performs no deduplication). -/
def resolvedPairs (note_id : String) (notes : List NoteRec) (labels : List String) :
    List (String × String) :=
  labels.filterMap (fun slug =>
    match findTarget slug notes with
    | some t => if t.id ≠ note_id then some (t.id, slug) else none
    | none => none)

/-- The owner's note directory: the result of
`select("id, slug").eq("user_id", user_id)` on the notes table. -/
def directory (notesTable : List NoteRow) (user_id : String) : List NoteRec :=
  (notesTable.filter (fun r => r.user_id == user_id)).map
    (fun r => NoteRec.mk r.id r.slug)

/-! ## The insert loop and the synchronization call -/

/-- The handler's insert loop, over the extracted labels.  `i` counts insert
attempts (for `StoreBehavior.insertFails`).  A failed insert is only logged:
it adds no row and reports no tuple, and the loop continues. -/
def insertLoop (note_id : String) (notes : List NoteRec) (b : StoreBehavior) :
    List String → List Edge → List InsertedLink → Nat →
    List Edge × List InsertedLink
  | [], store, ins, _ => (store, ins)
  | slug :: rest, store, ins, i =>
    match findTarget slug notes with
    | some t =>
      if t.id ≠ note_id then
        if b.insertFails i then
          insertLoop note_id notes b rest store ins (i + 1)
        else
          insertLoop note_id notes b rest
            (store ++ [⟨note_id, t.id⟩])
            (ins ++ [⟨note_id, t.id, slug⟩]) (i + 1)
      else insertLoop note_id notes b rest store ins i
    | none => insertLoop note_id notes b rest store ins i

/-- The body of the serve handler after validation (part_000 lines 102–189):
extract labels, delete the note's existing outgoing rows, fetch the owner's
directory, then run the insert loop.  Store operations happen in exactly this
order; a failing delete or fetch aborts with status 500. -/
def syncNote (note_id user_id content : String) (store : List Edge)
    (notesTable : List NoteRow) (b : StoreBehavior) : SyncResult :=
  let backlinks := serveBacklinks content
  if b.deleteFails then
    ⟨500, some "Failed to clear existing links", store, []⟩
  else
    let store1 := store.filter (fun e => e.source_note_id ≠ note_id)
    if b.fetchFails then
      ⟨500, some "Failed to fetch notes", store1, []⟩
    else
      let notes := directory notesTable user_id
      let (store2, inserted) := insertLoop note_id notes b backlinks store1 [] 0
      ⟨200, none, store2, inserted⟩

/-- The stored outgoing edge rows of a note. -/
def outgoing (store : List Edge) (note_id : String) : List Edge :=
  store.filter (fun e => e.source_note_id == note_id)

/-! ## The wire entry point (request validation) -/

/-- JSON values, as produced by `JSON.parse`. -/
inductive Json where
  | null : Json
  | bool : Bool → Json
  | num : Int → Json
  | str : String → Json
  | arr : List Json → Json
  | obj : List (String × Json) → Json

/-- An incoming HTTP request: method, whether `req.body` is non-null, the
`Content-Type` header (the code substitutes `""` when absent), the body
text, and the outcome of `JSON.parse` on that text (`none` when the parse
throws). -/
structure Request where
  method : String
  hasBody : Bool
  contentType : String
  bodyText : String
  parsed : Option Json

/-- JavaScript property access used by the destructuring
`const { note_id, content, user_id } = payload`: a field of an object, and
`undefined` (`none`) on every other non-null value. -/
def getField (j : Json) (k : String) : Option Json :=
  match j with
  | .obj fields => (fields.find? (fun p => p.1 == k)).map (fun p => p.2)
  | _ => none

/-- JavaScript truthiness of a possibly-absent field value
(`undefined`, `null`, `false`, `0`, and `""` are falsy). -/
def truthy : Option Json → Bool
  | none => false
  | some .null => false
  | some (.bool b) => b
  | some (.num n) => !(n == 0)
  | some (.str s) => !(s == "")
  | some (.arr _) => true
  | some (.obj _) => true

/-- JavaScript `String.prototype.includes`: `pat` occurs as a contiguous
substring of `s`. -/
def strIncludes (s pat : String) : Bool :=
  (List.range (s.data.length + 1)).any (fun i => pat.data.isPrefixOf (s.data.drop i))

/-- Whether an HTTP status is a client error (4xx). -/
def isClientError (s : Nat) : Bool :=
  400 ≤ s && s < 500

/-- The serve handler (part_000): method and body checks, Content-Type
check, JSON parsing, destructuring, the missing-fields truthiness check, and
then the synchronization body.

A `null` payload throws a TypeError at the destructuring, caught by the outer
handler as a 500.  When a field is truthy but not a string (outside the
declared `BacklinkPayload` shape), the code proceeds: a non-string `content`
throws at `content.matchAll` (500, before any store call); a non-string
`note_id` makes the delete query fail against the uuid column (500, no
mutation); a non-string `user_id` makes the directory fetch fail the same
way, but only after the delete has run. -/
def handler (req : Request) (store : List Edge) (notesTable : List NoteRow)
    (b : StoreBehavior) : SyncResult :=
  if req.method == "OPTIONS" then ⟨204, none, store, []⟩
  else if !(req.method == "POST") then
    ⟨405, some "Only POST requests are supported", store, []⟩
  else if !req.hasBody then
    ⟨400, some "Request body is empty or missing", store, []⟩
  else if !(strIncludes req.contentType "application/json") then
    ⟨400, some "Content-Type must be application/json", store, []⟩
  else if req.bodyText == "" then
    ⟨400, some "Empty request body", store, []⟩
  else
    match req.parsed with
    | none => ⟨400, some "Invalid JSON payload", store, []⟩
    | some .null => ⟨500, some "Internal server error", store, []⟩
    | some payload =>
      let fNote := getField payload "note_id"
      let fContent := getField payload "content"
      let fUser := getField payload "user_id"
      if !truthy fNote || !truthy fContent || !truthy fUser then
        ⟨400, some "Missing note_id, content, or user_id", store, []⟩
      else
        match fContent with
        | some (.str content) =>
          match fNote with
          | some (.str note_id) =>
            match fUser with
            | some (.str user_id) =>
              syncNote note_id user_id content store notesTable b
            | _ =>
              if b.deleteFails then
                ⟨500, some "Failed to clear existing links", store, []⟩
              else
                ⟨500, some "Failed to fetch notes",
                  store.filter (fun e => e.source_note_id ≠ note_id), []⟩
          | _ => ⟨500, some "Failed to clear existing links", store, []⟩
        | _ => ⟨500, some "Internal server error", store, []⟩

/-! ## The Dashboard most-linked-notes computation -/

/-- One step of the `backlinkCounts` accumulation: bump the count of a key,
appending new keys at the end (JavaScript object insertion order; note ids
are uuid strings, so `Object.entries` returns insertion order). -/
def bumpCount (acc : List (String × Nat)) (k : String) : List (String × Nat) :=
  if acc.any (fun p => p.1 == k) then
    acc.map (fun p => if p.1 == k then (p.1, p.2 + 1) else p)
  else acc ++ [(k, 1)]

/-- The `backlinkCounts` record built from the fetched `links` rows; rows
with a falsy `target_note_id` (`null` or `""`) are skipped. -/
def backlinkCounts (links : List (Option String)) : List (String × Nat) :=
  links.foldl
    (fun acc l =>
      match l with
      | some t => if t == "" then acc else bumpCount acc t
      | none => acc) []

/-- Stable insertion into a count-descending list: the new element goes
before the first entry whose count does not exceed it (insertion realises
JavaScript's stable sort with the descending count comparator; elements are
inserted right to left, so an element passes only strictly greater counts
and lands before equal ones, preserving original order on ties). -/
def insertDesc (x : String × Nat) : List (String × Nat) → List (String × Nat)
  | [] => [x]
  | y :: ys => if x.2 ≥ y.2 then x :: y :: ys else y :: insertDesc x ys

/-- Stable count-descending sort of the count entries. -/
def sortDesc (l : List (String × Nat)) : List (String × Nat) :=
  l.foldr insertDesc []

/-- `sortedNoteIds`: the ids of the (up to) five entries with the highest
counts. -/
def sortedNoteIds (links : List (Option String)) : List String :=
  ((sortDesc (backlinkCounts links)).take 5).map (fun p => p.1)

/-- The count looked up for a note id (`backlinkCounts[note.id] || 0`). -/
def countOf (links : List (Option String)) (id : String) : Nat :=
  match (backlinkCounts links).find? (fun p => p.1 == id) with
  | some p => p.2
  | none => 0

/-- The Dashboard's `topLinkedNotes`: the notes-store rows whose id is among
`sortedNoteIds` (in store return order, the `.in` query), each paired with
its count. -/
def topLinkedNotes (links : List (Option String)) (notesTable : List NoteRow) :
    List (NoteRow × Nat) :=
  (notesTable.filter (fun n => (sortedNoteIds links).contains n.id)).map
    (fun n => (n, countOf links n.id))

/-! ## A rule-major reading of the matching policy (for comparison)

The specification describes resolution as three rules tried in priority
order over the whole directory.  `specPriorityResolve` formalises that
reading faithfully to the specification's words, including its rule 3
("slug with any trailing hyphens stripped equals the label"); it is compared
against the implementation's single-pass `findTarget`. -/

/-- Strip all trailing hyphens from a string (the specification's rule 3). -/
def stripAllTrailingHyphens (s : String) : String :=
  ((s.data.reverse.dropWhile (· = '-')).reverse).asString

/-- Modelled from the spec: the matching policy as written — rule 1 (exact
equality) over the whole directory first, then rule 2 (slug = label + one
hyphen), then rule 3 (slug with any trailing hyphens stripped = label). -/
def specPriorityResolve (label : String) (notes : List NoteRec) : Option NoteRec :=
  (notes.find? (fun n => n.slug == label)) <|>
  (notes.find? (fun n => n.slug == label ++ "-")) <|>
  (notes.find? (fun n => stripAllTrailingHyphens n.slug == label))

/-! ## Helper lemmas -/

theorem takeWhile_append_all {p : Char → Bool} (l1 l2 : List Char)
    (h : ∀ a ∈ l1, p a = true) :
    (l1 ++ l2).takeWhile p = l1 ++ l2.takeWhile p := by
  induction l1 with
  | nil => simp
  | cons a l ih =>
    have ha : p a = true := h a (List.mem_cons_self a l)
    simp only [List.cons_append, List.takeWhile_cons, ha, if_true]
    rw [ih (fun b hb => h b (List.mem_cons_of_mem a hb))]

theorem dropWhile_append_all {p : Char → Bool} (l1 l2 : List Char)
    (h : ∀ a ∈ l1, p a = true) :
    (l1 ++ l2).dropWhile p = l2.dropWhile p := by
  induction l1 with
  | nil => simp
  | cons a l ih =>
    have ha : p a = true := h a (List.mem_cons_self a l)
    simp only [List.cons_append, List.dropWhile_cons, ha, if_true]
    exact ih (fun b hb => h b (List.mem_cons_of_mem a hb))

/-- `List.take 2` determining the first two elements. -/
theorem eq_of_take_two {l : List Char} {a b : Char} (h : l.take 2 = [a, b]) :
    l = a :: b :: l.drop 2 := by
  match l with
  | [] => simp at h
  | [x] => simp at h
  | x :: y :: rest =>
    simp only [List.take, List.cons.injEq] at h
    simp [h.1, h.2.1]

/-- Definitional unfolding of `extractGo` at a successor fuel. -/
theorem extractGo_succ (fuel : Nat) (c : Char) (cs : List Char) :
    extractGo (fuel + 1) (c :: cs) =
      if c = '[' ∧ cs.head? = some '[' then
        if cs.tail.takeWhile (· ≠ ']') ≠ [] ∧
            (cs.tail.dropWhile (· ≠ ']')).take 2 = [']', ']'] then
          cs.tail.takeWhile (· ≠ ']') ::
            extractGo fuel ((cs.tail.dropWhile (· ≠ ']')).drop 2)
        else extractGo fuel cs
      else extractGo fuel cs := rfl

/-- The fuel is irrelevant as long as it is at least the list length. -/
theorem extractGo_congr :
    ∀ (n : Nat) (cs : List Char) (f g : Nat), cs.length = n →
    n ≤ f → n ≤ g → extractGo f cs = extractGo g cs := by
  intro n
  induction n using Nat.strong_induction_on with
  | _ n ih =>
    intro cs f g hn hf hg
    match cs with
    | [] => cases f <;> cases g <;> rfl
    | c :: cs' =>
      subst hn
      cases f with
      | zero => simp at hf
      | succ f =>
        cases g with
        | zero => simp at hg
        | succ g =>
          have hcf : cs'.length ≤ f := by simpa using hf
          have hcg : cs'.length ≤ g := by simpa using hg
          have htl : cs'.tail.length ≤ cs'.length := by cases cs' <;> simp
          have hdl : (cs'.tail.dropWhile (· ≠ ']')).length ≤ cs'.tail.length :=
            (List.dropWhile_suffix _).length_le
          rw [extractGo_succ, extractGo_succ]
          by_cases h1 : c = '[' ∧ cs'.head? = some '['
          · rw [if_pos h1, if_pos h1]
            by_cases h2 : cs'.tail.takeWhile (· ≠ ']') ≠ [] ∧
                (cs'.tail.dropWhile (· ≠ ']')).take 2 = [']', ']']
            · rw [if_pos h2, if_pos h2]
              congr 1
              refine ih ((cs'.tail.dropWhile (· ≠ ']')).drop 2).length ?_ _ f g rfl ?_ ?_ <;>
                simp only [List.length_drop, List.length_cons] <;> omega
            · rw [if_neg h2, if_neg h2]
              exact ih cs'.length (by simp) cs' f g rfl hcf hcg
          · rw [if_neg h1, if_neg h1]
            exact ih cs'.length (by simp) cs' f g rfl hcf hcg

/-- Scanning rule: a character other than `[` is skipped. -/
theorem extractAux_skip (c : Char) (cs : List Char) (hc : c ≠ '[') :
    extractAux (c :: cs) = extractAux cs := by
  show extractGo (cs.length + 1) (c :: cs) = extractGo cs.length cs
  rw [extractGo_succ, if_neg (fun h => hc h.1)]

/-- Scanning rule: at `[[` followed by a nonempty `]`-free run and `]]`, the
run is captured and the scan resumes after the match. -/
theorem extractAux_match (lab rest : List Char) (hne : lab ≠ [])
    (hnr : ']' ∉ lab) :
    extractAux ('[' :: '[' :: (lab ++ ']' :: ']' :: rest)) =
      lab :: extractAux rest := by
  have hall : ∀ a ∈ lab, ((a ≠ ']' : Prop) → False) → False := by
    intro a ha h
    exact h (fun he => hnr (he ▸ ha))
  have hall' : ∀ a ∈ lab, (fun x => decide (x ≠ ']')) a = true := by
    intro a ha
    simp only [decide_eq_true_eq]
    intro he
    exact hnr (he ▸ ha)
  have htake : (lab ++ ']' :: ']' :: rest).takeWhile (fun x => decide (x ≠ ']')) = lab := by
    rw [takeWhile_append_all _ _ hall']
    simp
  have hdropw : (lab ++ ']' :: ']' :: rest).dropWhile (fun x => decide (x ≠ ']')) =
      ']' :: ']' :: rest := by
    rw [dropWhile_append_all _ _ hall']
    simp
  show extractGo (('[' :: (lab ++ ']' :: ']' :: rest)).length + 1)
      ('[' :: '[' :: (lab ++ ']' :: ']' :: rest)) = lab :: extractGo rest.length rest
  rw [extractGo_succ, if_pos ⟨rfl, rfl⟩]
  simp only [List.tail_cons, htake, hdropw]
  rw [if_pos ⟨hne, rfl⟩]
  simp only [List.drop_succ_cons, List.drop_zero]
  congr 1
  refine extractGo_congr rest.length rest _ _ rfl ?_ le_rfl
  simp
  omega

/-- Scanning rule: at a `[` where no match starts, the scan advances one
position. -/
theorem extractAux_advance (cs : List Char)
    (h : ∀ lab tail, cs ≠ '[' :: (lab ++ ']' :: ']' :: tail) ∨ lab = [] ∨ ']' ∈ lab) :
    extractAux ('[' :: cs) = extractAux cs := by
  show extractGo (cs.length + 1) ('[' :: cs) = extractGo cs.length cs
  rw [extractGo_succ]
  by_cases h1 : ('[' : Char) = '[' ∧ cs.head? = some '['
  · rw [if_pos h1]
    by_cases h2 : cs.tail.takeWhile (· ≠ ']') ≠ [] ∧
        (cs.tail.dropWhile (· ≠ ']')).take 2 = [']', ']']
    · exfalso
      obtain ⟨hne, htk⟩ := h2
      obtain ⟨c0, cs', rfl⟩ : ∃ c0 cs', cs = c0 :: cs' := by
        cases cs with
        | nil => simp at h1
        | cons a b => exact ⟨a, b, rfl⟩
      have hc0 : c0 = '[' := by
        have h12 := h1.2
        simp only [List.head?_cons, Option.some.injEq] at h12
        exact h12
      subst hc0
      simp only [List.tail_cons] at hne htk
      have hshape : cs'.dropWhile (· ≠ ']') =
          ']' :: ']' :: (cs'.dropWhile (· ≠ ']')).drop 2 := eq_of_take_two htk
      have hnomem : ']' ∉ cs'.takeWhile (· ≠ ']') := by
        intro hm
        have hp := List.mem_takeWhile_imp hm
        simp at hp
      rcases h (cs'.takeWhile (· ≠ ']')) ((cs'.dropWhile (· ≠ ']')).drop 2) with
        hneq | hnil | hmem
      · apply hneq
        rw [← hshape, List.takeWhile_append_dropWhile]
      · exact hne hnil
      · exact hnomem hmem
    · rw [if_neg h2]
  · rw [if_neg h1]

theorem insertLoop_ok (note_id : String) (notes : List NoteRec) :
    ∀ (labels : List String) (store : List Edge) (ins : List InsertedLink) (i : Nat),
    insertLoop note_id notes okBehavior labels store ins i =
      (store ++ (resolvedPairs note_id notes labels).map
          (fun p => Edge.mk note_id p.1),
       ins ++ (resolvedPairs note_id notes labels).map
          (fun p => InsertedLink.mk note_id p.1 p.2)) := by
  intro labels
  induction labels with
  | nil => intro store ins i; simp [insertLoop, resolvedPairs]
  | cons slug rest ih =>
    intro store ins i
    simp only [insertLoop, resolvedPairs, List.filterMap_cons]
    cases h : findTarget slug notes with
    | none => simpa [resolvedPairs] using ih store ins i
    | some t =>
      dsimp only
      by_cases hid : t.id ≠ note_id
      · rw [if_pos hid, if_neg (by simp [okBehavior])]
        rw [ih]
        simp [resolvedPairs, if_pos hid]
      · rw [if_neg hid]
        simpa [resolvedPairs, hid] using ih store ins i

theorem insertLoop_mem (note_id : String) (notes : List NoteRec) (b : StoreBehavior) :
    ∀ (labels : List String) (store : List Edge) (ins : List InsertedLink) (i : Nat)
      (e : Edge),
    e ∈ (insertLoop note_id notes b labels store ins i).1 →
      e ∈ store ∨ (e.source_note_id = note_id ∧ e.target_note_id ≠ note_id) := by
  intro labels
  induction labels with
  | nil => intro store ins i e he; simp only [insertLoop] at he; exact Or.inl he
  | cons slug rest ih =>
    intro store ins i e he
    simp only [insertLoop] at he
    cases h : findTarget slug notes with
    | none => rw [h] at he; exact ih store ins i e he
    | some t =>
      rw [h] at he
      dsimp only at he
      by_cases hid : t.id ≠ note_id
      · rw [if_pos hid] at he
        by_cases hf : b.insertFails i = true
        · rw [if_pos hf] at he; exact ih store ins (i + 1) e he
        · rw [if_neg hf] at he
          rcases ih _ _ _ _ he with hmem | hprop
          · rcases List.mem_append.mp hmem with hs | hnew
            · exact Or.inl hs
            · simp only [List.mem_singleton] at hnew
              subst hnew
              exact Or.inr ⟨rfl, hid⟩
          · exact Or.inr hprop
      · rw [if_neg hid] at he
        exact ih store ins i e he

/-- The successful-call shape of `syncNote`. -/
theorem syncNote_ok (note_id user_id content : String) (store : List Edge)
    (notesTable : List NoteRow) :
    syncNote note_id user_id content store notesTable okBehavior =
      ⟨200, none,
        store.filter (fun e => e.source_note_id ≠ note_id) ++
          (resolvedPairs note_id (directory notesTable user_id)
              (serveBacklinks content)).map (fun p => Edge.mk note_id p.1),
        (resolvedPairs note_id (directory notesTable user_id)
            (serveBacklinks content)).map
          (fun p => InsertedLink.mk note_id p.1 p.2)⟩ := by
  simp only [syncNote]
  rw [if_neg (by decide), if_neg (by decide), insertLoop_ok]
  simp

theorem outgoing_append (s t : List Edge) (id : String) :
    outgoing (s ++ t) id = outgoing s id ++ outgoing t id := by
  simp [outgoing, List.filter_append]

theorem outgoing_deleted (store : List Edge) (note_id : String) :
    outgoing (store.filter (fun e => e.source_note_id ≠ note_id)) note_id = [] := by
  simp only [outgoing, List.filter_filter]
  apply List.filter_eq_nil_iff.mpr
  intro e _
  by_cases hc : e.source_note_id = note_id <;> simp [hc]

theorem outgoing_inserted (note_id : String) (pairs : List (String × String)) :
    outgoing (pairs.map (fun p => Edge.mk note_id p.1)) note_id =
      pairs.map (fun p => Edge.mk note_id p.1) := by
  apply List.filter_eq_self.mpr
  intro e he
  rcases List.mem_map.mp he with ⟨p, _, rfl⟩
  simp

/-- After a fully successful call, the note's stored outgoing rows are
exactly one row per resolvable non-self label occurrence, in extraction
order. -/
theorem outgoing_after_sync (note_id user_id content : String) (store : List Edge)
    (notesTable : List NoteRow) :
    outgoing (syncNote note_id user_id content store notesTable okBehavior).links
        note_id =
      (resolvedPairs note_id (directory notesTable user_id)
          (serveBacklinks content)).map (fun p => Edge.mk note_id p.1) := by
  rw [syncNote_ok]
  simp only
  rw [outgoing_append, outgoing_deleted, outgoing_inserted, List.nil_append]

/-! ## Lemmas about the Dashboard count computation -/

/-- Non-increasing-count relation on count entries. -/
def ge2 (a b : String × Nat) : Prop := b.2 ≤ a.2

theorem insertDesc_perm (x : String × Nat) :
    ∀ l : List (String × Nat), List.Perm (insertDesc x l) (x :: l) := by
  intro l
  induction l with
  | nil => exact List.Perm.refl _
  | cons y ys ih =>
    show List.Perm (if x.2 ≥ y.2 then x :: y :: ys else y :: insertDesc x ys) (x :: y :: ys)
    by_cases h : x.2 ≥ y.2
    · rw [if_pos h]
    · rw [if_neg h]
      exact (ih.cons y).trans (List.Perm.swap x y ys)

theorem sortDesc_perm (l : List (String × Nat)) : List.Perm (sortDesc l) l := by
  induction l with
  | nil => exact List.Perm.refl _
  | cons a rest ih =>
    show List.Perm (insertDesc a (sortDesc rest)) (a :: rest)
    exact (insertDesc_perm a (sortDesc rest)).trans (ih.cons a)

theorem insertDesc_pairwise (x : String × Nat) :
    ∀ l : List (String × Nat), l.Pairwise ge2 → (insertDesc x l).Pairwise ge2 := by
  intro l
  induction l with
  | nil => intro _; exact List.pairwise_singleton ge2 x
  | cons y ys ih =>
    intro h
    rcases List.pairwise_cons.mp h with ⟨hy, hys⟩
    show (if x.2 ≥ y.2 then x :: y :: ys else y :: insertDesc x ys).Pairwise ge2
    by_cases hxy : x.2 ≥ y.2
    · rw [if_pos hxy]
      refine List.pairwise_cons.mpr ⟨?_, h⟩
      intro z hz
      rcases List.mem_cons.mp hz with rfl | hz'
      · exact hxy
      · exact le_trans (hy z hz') hxy
    · rw [if_neg hxy]
      refine List.pairwise_cons.mpr ⟨?_, ih hys⟩
      intro z hz
      have hz' : z ∈ x :: ys := (insertDesc_perm x ys).mem_iff.mp hz
      rcases List.mem_cons.mp hz' with rfl | hz''
      · exact le_of_not_le hxy
      · exact hy z hz''

theorem sortDesc_pairwise (l : List (String × Nat)) : (sortDesc l).Pairwise ge2 := by
  induction l with
  | nil => exact List.Pairwise.nil
  | cons a rest ih => exact insertDesc_pairwise a (sortDesc rest) ih

theorem pairwise_take_drop {l : List (String × Nat)} (h : l.Pairwise ge2) (n : Nat) :
    ∀ x ∈ l.take n, ∀ y ∈ l.drop n, y.2 ≤ x.2 := by
  have h2 : (l.take n ++ l.drop n).Pairwise ge2 := by
    rw [List.take_append_drop]
    exact h
  exact fun x hx y hy => (List.pairwise_append.mp h2).2.2 x hx y hy

theorem bumpCount_fst (acc : List (String × Nat)) (k : String) :
    (bumpCount acc k).map Prod.fst =
      if acc.any (fun p => p.1 == k) then acc.map Prod.fst
      else acc.map Prod.fst ++ [k] := by
  by_cases h : acc.any (fun p => p.1 == k)
  · rw [if_pos h]
    simp only [bumpCount, if_pos h, List.map_map]
    apply List.map_congr_left
    intro p _
    show (if p.1 == k then (p.1, p.2 + 1) else p).1 = p.1
    split <;> rfl
  · rw [if_neg h]
    simp [bumpCount, if_neg h]

theorem bumpCount_keys_nodup (acc : List (String × Nat)) (k : String)
    (h : (acc.map Prod.fst).Nodup) : ((bumpCount acc k).map Prod.fst).Nodup := by
  rw [bumpCount_fst]
  by_cases ha : acc.any (fun p => p.1 == k)
  · rw [if_pos ha]; exact h
  · rw [if_neg ha]
    have hk : k ∉ acc.map Prod.fst := by
      intro hm
      rcases List.mem_map.mp hm with ⟨p, hp, hpk⟩
      exact ha (List.any_eq_true.mpr ⟨p, hp, by simp [hpk]⟩)
    refine List.Nodup.append h (List.nodup_singleton k) ?_
    intro a ha hmem
    rw [List.mem_singleton] at hmem
    exact hk (hmem ▸ ha)

theorem backlinkCounts_keys_nodup (links : List (Option String)) :
    ((backlinkCounts links).map Prod.fst).Nodup := by
  suffices hgen : ∀ acc : List (String × Nat), (acc.map Prod.fst).Nodup →
      ((links.foldl
        (fun acc l =>
          match l with
          | some t => if t == "" then acc else bumpCount acc t
          | none => acc) acc).map Prod.fst).Nodup by
    exact hgen [] (by simp)
  induction links with
  | nil => intro acc h; exact h
  | cons l rest ih =>
    intro acc h
    simp only [List.foldl_cons]
    apply ih
    match l with
    | none => exact h
    | some t =>
      by_cases ht : t == ""
      · simpa [ht] using h
      · simpa [ht] using bumpCount_keys_nodup acc t h

theorem find?_keys_nodup {l : List (String × Nat)}
    (h : (l.map Prod.fst).Nodup) {p : String × Nat} (hp : p ∈ l) :
    l.find? (fun q => q.1 == p.1) = some p := by
  induction l with
  | nil => cases hp
  | cons q rest ih =>
    rw [List.map_cons] at h
    have hnd := List.nodup_cons.mp h
    rcases List.mem_cons.mp hp with rfl | hp'
    · rw [List.find?_cons_of_pos _ (by simp)]
    · have hqf : (q.1 == p.1) = false := by
        rw [beq_eq_false_iff_ne]
        intro hqp
        apply hnd.1
        rw [hqp]
        exact List.mem_map.mpr ⟨p, hp', rfl⟩
      exact (List.find?_cons_of_neg _ (by simp [hqf])).trans (ih hnd.2 hp')

/-! ## Resolution membership lemmas -/

theorem mem_resolvedPairs_iff {note_id : String} {notes : List NoteRec}
    {labels : List String} {pr : String × String} :
    pr ∈ resolvedPairs note_id notes labels ↔
      pr.2 ∈ labels ∧ resolveTarget note_id notes pr.2 = some pr.1 := by
  unfold resolvedPairs
  rw [List.mem_filterMap]
  constructor
  · rintro ⟨lab, hlab, hf⟩
    cases hft : findTarget lab notes with
    | none => rw [hft] at hf; cases hf
    | some t =>
      rw [hft] at hf
      dsimp only at hf
      by_cases hid : t.id ≠ note_id
      · rw [if_pos hid] at hf
        cases hf
        refine ⟨hlab, ?_⟩
        unfold resolveTarget
        rw [hft]
        dsimp only
        rw [if_pos hid]
      · rw [if_neg hid] at hf; cases hf
  · rintro ⟨hmem, hres⟩
    refine ⟨pr.2, hmem, ?_⟩
    unfold resolveTarget at hres
    cases hft : findTarget pr.2 notes with
    | none => rw [hft] at hres; cases hres
    | some t =>
      rw [hft] at hres
      dsimp only at hres ⊢
      by_cases hid : t.id ≠ note_id
      · rw [if_pos hid] at hres
        have heq : t.id = pr.1 := Option.some.inj hres
        rw [if_pos hid, heq]
      · rw [if_neg hid] at hres; cases hres

theorem resolveTarget_ne {note_id : String} {notes : List NoteRec} {lab t : String}
    (h : resolveTarget note_id notes lab = some t) : t ≠ note_id := by
  unfold resolveTarget at h
  cases hft : findTarget lab notes with
  | none => rw [hft] at h; cases h
  | some n =>
    rw [hft] at h
    dsimp only at h
    by_cases hid : n.id ≠ note_id
    · rw [if_pos hid] at h
      cases h
      exact hid
    · rw [if_neg hid] at h; cases h

/-! ## Claims -/

/-- Claim C1 is refuted: the insert loop deduplicates nothing, so content
referencing the same resolvable label three times stores three identical
edge rows after a fully successful synchronization, not one. -/
theorem C1_cex :
    (outgoing (syncNote "n1" "u" "[[a]] [[a]] [[a]]" [] [⟨"X", "a", "u"⟩]
        okBehavior).links "n1") =
      [⟨"n1", "X"⟩, ⟨"n1", "X"⟩, ⟨"n1", "X"⟩]
  ∧ ¬ (outgoing (syncNote "n1" "u" "[[a]] [[a]] [[a]]" [] [⟨"X", "a", "u"⟩]
        okBehavior).links "n1").Nodup := by
  decide

/-- Claim C1 as amended: immediately after a successful synchronize call the
stored outgoing rows of the note are exactly one row per resolvable non-self
label occurrence in extraction order; as a *set* they equal the set of
targets resolvable from the content, and none is a self-edge — but duplicate
resolvable labels yield duplicate stored rows (multiset, not set). -/
theorem sync_outgoing_reflects_content (note_id user_id content : String)
    (store : List Edge) (notesTable : List NoteRow) :
    outgoing (syncNote note_id user_id content store notesTable okBehavior).links
        note_id =
      (resolvedPairs note_id (directory notesTable user_id)
        (serveBacklinks content)).map (fun p => Edge.mk note_id p.1)
  ∧ (∀ t : String,
      Edge.mk note_id t ∈
          outgoing (syncNote note_id user_id content store notesTable
            okBehavior).links note_id ↔
        ∃ lab ∈ serveBacklinks content,
          resolveTarget note_id (directory notesTable user_id) lab = some t)
  ∧ ((outgoing (syncNote note_id user_id content store notesTable
        okBehavior).links note_id).all
      (fun e => e.target_note_id ≠ note_id)) = true := by
  refine ⟨outgoing_after_sync note_id user_id content store notesTable, ?_, ?_⟩
  · intro t
    rw [outgoing_after_sync, List.mem_map]
    constructor
    · rintro ⟨p, hp, he⟩
      have hfst : p.1 = t := by cases he; rfl
      rcases mem_resolvedPairs_iff.mp hp with ⟨hmem, hres⟩
      exact ⟨p.2, hmem, by rw [hres, hfst]⟩
    · rintro ⟨lab, hlab, hres⟩
      exact ⟨(t, lab), mem_resolvedPairs_iff.mpr ⟨hlab, hres⟩, rfl⟩
  · rw [outgoing_after_sync, List.all_eq_true]
    intro e he
    rcases List.mem_map.mp he with ⟨p, hp, rfl⟩
    rcases mem_resolvedPairs_iff.mp hp with ⟨_, hres⟩
    simpa using resolveTarget_ne hres

/-- Claim C2 is refuted: the handler deletes the note's outgoing rows *before*
fetching the owner's directory, so a directory-fetch failure aborts after a
store mutation has already happened: a pre-existing outgoing edge is gone. -/
theorem C2_cex :
    (syncNote "n1" "u" "[[a]]" [⟨"n1", "X"⟩] []
        ⟨false, true, fun _ => false⟩).status = 500
  ∧ (syncNote "n1" "u" "[[a]]" [⟨"n1", "X"⟩] []
        ⟨false, true, fun _ => false⟩).error = some "Failed to fetch notes"
  ∧ (syncNote "n1" "u" "[[a]]" [⟨"n1", "X"⟩] []
        ⟨false, true, fun _ => false⟩).links = []
  ∧ ([⟨"n1", "X"⟩] : List Edge) ≠ [] := by
  decide

/-- Claim C2 as amended: a failing delete aborts the call with no store
mutation and no insert attempted; a failing directory fetch aborts before
any insert is attempted, but only *after* the delete has removed the note's
outgoing rows, leaving that partial effect behind. -/
theorem sync_failure_effects (note_id user_id content : String)
    (store : List Edge) (notesTable : List NoteRow) (b : StoreBehavior) :
    (b.deleteFails = true →
      syncNote note_id user_id content store notesTable b =
        ⟨500, some "Failed to clear existing links", store, []⟩)
  ∧ (b.deleteFails = false → b.fetchFails = true →
      syncNote note_id user_id content store notesTable b =
        ⟨500, some "Failed to fetch notes",
          store.filter (fun e => e.source_note_id ≠ note_id), []⟩) := by
  refine ⟨fun hd => ?_, fun hd hf => ?_⟩
  · simp [syncNote, hd]
  · simp [syncNote, hd, hf]

/-- Witness for the amended claim C2 theorem at concrete inputs. -/
theorem sync_failure_effects_witness :
    syncNote "n" "u" "" [] [] ⟨true, false, fun _ => false⟩ =
      ⟨500, some "Failed to clear existing links", [], []⟩
  ∧ syncNote "n" "u" "" [⟨"n", "X"⟩] [] ⟨false, true, fun _ => false⟩ =
      ⟨500, some "Failed to fetch notes", [], []⟩ :=
  ⟨(sync_failure_effects "n" "u" "" [] [] ⟨true, false, fun _ => false⟩).1 rfl,
   (sync_failure_effects "n" "u" "" [⟨"n", "X"⟩] [] ⟨false, true, fun _ => false⟩).2
     rfl rfl⟩

/-- Claim C5 is confirmed: synchronization is idempotent — after a second
successful call with the same note, owner and content, the stored outgoing
rows of the note are the same as after the first call. -/
theorem sync_idempotent (note_id user_id content : String) (store : List Edge)
    (notesTable : List NoteRow) :
    outgoing (syncNote note_id user_id content
        (syncNote note_id user_id content store notesTable okBehavior).links
        notesTable okBehavior).links note_id =
      outgoing (syncNote note_id user_id content store notesTable
        okBehavior).links note_id := by
  rw [outgoing_after_sync, outgoing_after_sync]

/-- Claim C6 is confirmed: a label whose first matching directory entry is the
resolving note itself resolves to `None`, and no synchronization call, under
any store behaviour, ever inserts a self-edge: any self-edge present
afterwards was already in the store before the call. -/
theorem self_reference_excluded :
    (∀ (note_id label : String) (notes : List NoteRec) (t : NoteRec),
      findTarget label notes = some t → t.id = note_id →
      resolveTarget note_id notes label = none)
  ∧ (∀ (note_id user_id content : String) (store : List Edge)
      (notesTable : List NoteRow) (b : StoreBehavior),
      Edge.mk note_id note_id ∈
          (syncNote note_id user_id content store notesTable b).links →
      Edge.mk note_id note_id ∈ store) := by
  constructor
  · intro note_id label notes t hft hid
    unfold resolveTarget
    rw [hft]
    dsimp only
    rw [if_neg (by simp [hid])]
  · intro note_id user_id content store notesTable b hmem
    by_cases hd : b.deleteFails = true
    · simpa [syncNote, hd] using hmem
    · by_cases hf : b.fetchFails = true
      · simp only [syncNote, hd, hf] at hmem
        simp only [Bool.false_eq_true, if_false, if_true] at hmem
        exact (List.mem_filter.mp hmem).1
      · simp only [syncNote, hd, hf] at hmem
        simp only [Bool.false_eq_true, if_false] at hmem
        rcases insertLoop_mem note_id (directory notesTable user_id) b
            (serveBacklinks content)
            (store.filter (fun e => e.source_note_id ≠ note_id)) [] 0
            (Edge.mk note_id note_id) hmem with hin | hprop
        · exact (List.mem_filter.mp hin).1
        · exact absurd rfl hprop.2

/-- Witness for claim C6 at concrete inputs (a self-matching directory entry and a
call that leaves a pre-existing self-edge untouched because the delete
fails). -/
theorem self_reference_excluded_witness :
    resolveTarget "n1" [⟨"n1", "a"⟩] "a" = none
  ∧ Edge.mk "n1" "n1" ∈ ([⟨"n1", "n1"⟩] : List Edge) :=
  ⟨self_reference_excluded.1 "n1" "a" [⟨"n1", "a"⟩] ⟨"n1", "a"⟩ (by decide) rfl,
   self_reference_excluded.2 "n1" "u" "" [⟨"n1", "n1"⟩] []
     ⟨true, false, fun _ => false⟩ (by decide)⟩

/-- Claim C3 is refuted twice over: (a) the code never strips hyphens from the
*slug* — an entry with slug `"foo--"` does not resolve label `"foo"`, though
the claimed rule 3 ("slug with any trailing hyphens stripped") would; (b)
resolution is a single entry-major scan, not three rules in priority order —
with directory `[("A","foo-"), ("B","foo")]` and label `"foo"`, exact
equality would prefer `"B"`, but the code returns `"A"`. -/
theorem C3_cex :
    findTarget "foo" [⟨"A", "foo--"⟩] = none
  ∧ stripAllTrailingHyphens "foo--" = "foo"
  ∧ findTarget "foo" [⟨"A", "foo-"⟩, ⟨"B", "foo"⟩] = some ⟨"A", "foo-"⟩
  ∧ specPriorityResolve "foo" [⟨"A", "foo-"⟩, ⟨"B", "foo"⟩] = some ⟨"B", "foo"⟩ := by
  decide

/-- Claim C3 as amended: resolution scans the directory once in order and
returns the first entry whose slug equals the label, the label plus one
trailing hyphen, or the label with one trailing hyphen removed; when several
entries match, directory order decides, not rule priority.  An entry with
slug `"foo-"` still resolves label `"foo"`, and an entry `"foo"` still
resolves label `"foo-"`. -/
theorem resolution_entry_major :
    (∀ (label : String) (pre post : List NoteRec) (n : NoteRec),
      (∀ m ∈ pre, slugMatches label m = false) → slugMatches label n = true →
      findTarget label (pre ++ n :: post) = some n)
  ∧ findTarget "foo" [⟨"X", "foo-"⟩] = some ⟨"X", "foo-"⟩
  ∧ findTarget "foo-" [⟨"X", "foo"⟩] = some ⟨"X", "foo"⟩ := by
  refine ⟨?_, by decide, by decide⟩
  intro label pre post n hpre hn
  induction pre with
  | nil => exact List.find?_cons_of_pos _ hn
  | cons m pre ih =>
    have hm : ¬(slugMatches label m = true) := by
      simp [hpre m (List.mem_cons_self m pre)]
    exact (List.find?_cons_of_neg _ hm).trans
      (ih (fun m' hm' => hpre m' (List.mem_cons_of_mem m hm')))

/-- Witness for the amended claim C3 theorem: the first matching entry wins past a
non-matching one. -/
theorem resolution_entry_major_witness :
    findTarget "x" [⟨"A", "zzz"⟩, ⟨"B", "x"⟩] = some ⟨"B", "x"⟩ :=
  resolution_entry_major.1 "x" [⟨"A", "zzz"⟩] [] ⟨"B", "x"⟩ (by decide) (by decide)

/-- Claim C4 is refuted: the Garden component maps `match[1]` without `.trim()`
while the serve handler maps `match[1].trim()`, so on `"[[ a ]]"` the display
label sequence is `[" a "]` but the synchronizer's is `["a"]`. -/
theorem C4_cex :
    displayBacklinks "[[ a ]]" = [" a "]
  ∧ serveBacklinks "[[ a ]]" = ["a"]
  ∧ serveBacklinks "[[ a ]]" ≠ displayBacklinks "[[ a ]]" := by
  decide

/-- Claim C4 as amended: the two extractors share the same regex scan and agree
up to trimming — the synchronizer's label sequence is the display sequence
with each label trimmed, and the two coincide exactly on content none of
whose labels carries surrounding whitespace.  (Display-time rendering does
not perform directory-based resolution at all; it links each raw label
directly as a slug.) -/
theorem extractors_agree_up_to_trim :
    (∀ content : String,
      serveBacklinks content = (displayBacklinks content).map jsTrim)
  ∧ (∀ content : String, (∀ l ∈ displayBacklinks content, jsTrim l = l) →
      serveBacklinks content = displayBacklinks content) := by
  constructor
  · intro content
    rfl
  · intro content h
    show (displayBacklinks content).map jsTrim = displayBacklinks content
    calc (displayBacklinks content).map jsTrim
        = (displayBacklinks content).map id := List.map_congr_left h
      _ = displayBacklinks content := List.map_id _

/-- Witness for the amended claim C4 theorem on whitespace-free labels. -/
theorem extractors_agree_up_to_trim_witness :
    serveBacklinks "[[a]] and [[b]]" = displayBacklinks "[[a]] and [[b]]" :=
  extractors_agree_up_to_trim.2 "[[a]] and [[b]]" (by decide)

/-- Claim C8 is confirmed: the scanner skips any character other than `[`;
at `[[` followed by a nonempty `]`-free run and `]]` it captures the run
(trimmed at the serve call site) and resumes after the match; at a `[` where
no such match starts it advances one position; empty content and empty or
unterminated brackets produce no label, and duplicates are kept in
left-to-right order. -/
theorem extraction_spec :
    (∀ (c : Char) (cs : List Char), c ≠ '[' → extractAux (c :: cs) = extractAux cs)
  ∧ (∀ (lab rest : List Char), lab ≠ [] → ']' ∉ lab →
      extractAux ('[' :: '[' :: (lab ++ ']' :: ']' :: rest)) =
        lab :: extractAux rest)
  ∧ (∀ cs : List Char,
      (∀ lab tail, cs ≠ '[' :: (lab ++ ']' :: ']' :: tail) ∨ lab = [] ∨ ']' ∈ lab) →
      extractAux ('[' :: cs) = extractAux cs)
  ∧ extractAux [] = []
  ∧ serveBacklinks "" = []
  ∧ serveBacklinks "[[]]" = []
  ∧ serveBacklinks "[[a]] [[a]] [[a]]" = ["a", "a", "a"]
  ∧ serveBacklinks "[[ a ]]" = ["a"]
  ∧ serveBacklinks "[[x]" = [] :=
  ⟨extractAux_skip, extractAux_match, extractAux_advance, rfl,
   by decide, by decide, by decide, by decide, by decide⟩

/-- Witness for the claim C8 scanning rules at concrete inputs. -/
theorem extraction_spec_witness :
    extractAux ['x', 'y'] = extractAux ['y']
  ∧ extractAux ('[' :: '[' :: (['a'] ++ ']' :: ']' :: [])) = ['a'] :: extractAux []
  ∧ extractAux ('[' :: [']']) = extractAux [']'] :=
  ⟨extraction_spec.1 'x' ['y'] (by decide),
   extraction_spec.2.1 ['a'] [] (by decide) (by decide),
   extraction_spec.2.2.1 [']'] (by intro lab tail; left; simp)⟩

/-- Claim C7 is refuted on ordering: the Dashboard selects the top ids by
descending count, but the final list follows the notes-store return order of
the `.in` query — with store order `[A, B]` and counts `A ↦ 1, B ↦ 2` the
rendered list is `[(A,1), (B,2)]`, not count-descending.  (The limit is also
hard-coded to 5 rather than a parameter `n`.) -/
theorem C7_cex :
    topLinkedNotes [some "B", some "B", some "A"]
        [⟨"A", "a", "u"⟩, ⟨"B", "b", "u"⟩] =
      [(⟨"A", "a", "u"⟩, 1), (⟨"B", "b", "u"⟩, 2)]
  ∧ ¬ List.Sorted (fun a b => b ≤ a)
      ((topLinkedNotes [some "B", some "B", some "A"]
        [⟨"A", "a", "u"⟩, ⟨"B", "b", "u"⟩]).map (fun p => p.2)) := by
  decide

/-- Claim C7 as amended: the Dashboard recomputes counts from all stored edge
rows on every call (no owner filter on edges); it selects at most five note
ids, every selected id's count is at least every unselected id's count, and
each returned note is paired with its correct recomputed count — but the
returned list order is the notes-store return order, and the limit is the
constant 5. -/
theorem topLinked_spec (links : List (Option String)) (notesTable : List NoteRow) :
    (sortedNoteIds links).length ≤ 5
  ∧ (∀ p ∈ topLinkedNotes links notesTable,
      p.1.id ∈ sortedNoteIds links ∧ p.2 = countOf links p.1.id)
  ∧ (∀ q ∈ backlinkCounts links, q.1 ∉ sortedNoteIds links →
      ∀ id ∈ sortedNoteIds links, q.2 ≤ countOf links id) := by
  refine ⟨?_, ?_, ?_⟩
  · simp only [sortedNoteIds, List.length_map, List.length_take]
    exact Nat.min_le_left _ _
  · intro p hp
    rcases List.mem_map.mp hp with ⟨n, hn, rfl⟩
    have hsel : (sortedNoteIds links).contains n.id = true :=
      (List.mem_filter.mp hn).2
    exact ⟨by simpa using hsel, rfl⟩
  · intro q hq hqnot id hid
    rcases List.mem_map.mp hid with ⟨p, hp5, rfl⟩
    have hpsorted : p ∈ sortDesc (backlinkCounts links) :=
      List.take_subset 5 _ hp5
    have hpcounts : p ∈ backlinkCounts links :=
      (sortDesc_perm (backlinkCounts links)).mem_iff.mp hpsorted
    have hcount : countOf links p.1 = p.2 := by
      unfold countOf
      rw [find?_keys_nodup (backlinkCounts_keys_nodup links) hpcounts]
    rw [hcount]
    have hqsorted : q ∈ sortDesc (backlinkCounts links) :=
      (sortDesc_perm (backlinkCounts links)).mem_iff.mpr hq
    have happ : q ∈ (sortDesc (backlinkCounts links)).take 5 ++
        (sortDesc (backlinkCounts links)).drop 5 := by
      rw [List.take_append_drop]
      exact hqsorted
    rcases List.mem_append.mp happ with hqt | hqd
    · exact absurd (List.mem_map.mpr ⟨q, hqt, rfl⟩) hqnot
    · exact pairwise_take_drop (sortDesc_pairwise (backlinkCounts links)) 5 p hp5 q hqd

/-- Witness for the amended claim C7 theorem: with six referenced ids the sixth is
unselected and its count is bounded by a selected one's; a returned note is
paired with its recomputed count. -/
theorem topLinked_spec_witness :
    (1 : Nat) ≤ countOf [some "a1", some "a1", some "a2", some "a2", some "a3",
        some "a3", some "a4", some "a4", some "a5", some "a5", some "a6"] "a1"
  ∧ ((⟨"a1", "s", "u"⟩ : NoteRow).id ∈ sortedNoteIds [some "a1", some "a1",
        some "a2", some "a2", some "a3", some "a3", some "a4", some "a4",
        some "a5", some "a5", some "a6"]
      ∧ (2 : Nat) = countOf [some "a1", some "a1", some "a2", some "a2",
          some "a3", some "a3", some "a4", some "a4", some "a5", some "a5",
          some "a6"] "a1") :=
  ⟨(topLinked_spec [some "a1", some "a1", some "a2", some "a2", some "a3",
      some "a3", some "a4", some "a4", some "a5", some "a5", some "a6"] []).2.2
      ("a6", 1) (by decide) (by decide) "a1" (by decide),
   (topLinked_spec [some "a1", some "a1", some "a2", some "a2", some "a3",
      some "a3", some "a4", some "a4", some "a5", some "a5", some "a6"]
      [⟨"a1", "s", "u"⟩]).2.1 (⟨"a1", "s", "u"⟩, 2) (by decide)⟩

/-- Claim C9 is refuted on one input: the body `"null"` is valid JSON and not
an object, yet the destructuring of the `null` payload throws, and the
handler answers 500 (not a 4xx client error); the store is untouched. -/
theorem C9_cex :
    handler ⟨"POST", true, "application/json", "null", some .null⟩ [] []
        okBehavior =
      ⟨500, some "Internal server error", [], []⟩
  ∧ isClientError 500 = false := by
  decide

/-- Claim C9 as amended: under a POST with a JSON content type and a non-empty
body, the handler rejects an unparsable body, a non-object non-null payload,
and an object payload with a missing or falsy field with a 400 before any
store access; a JSON `null` payload is rejected with a 500 (still with no
store access); with three truthy string fields it runs the synchronization
body, and on full success the reported tuple list is exactly the list of
edge rows appended to the store. -/
theorem handler_validation (req : Request) (store : List Edge)
    (notesTable : List NoteRow) (b : StoreBehavior)
    (hm : req.method = "POST") (hb : req.hasBody = true)
    (hct : strIncludes req.contentType "application/json" = true)
    (hbt : req.bodyText ≠ "") :
    (req.parsed = none →
      handler req store notesTable b =
        ⟨400, some "Invalid JSON payload", store, []⟩)
  ∧ (∀ j : Json, req.parsed = some j → (∀ fields, j ≠ .obj fields) →
      j ≠ .null →
      handler req store notesTable b =
        ⟨400, some "Missing note_id, content, or user_id", store, []⟩)
  ∧ (req.parsed = some .null →
      handler req store notesTable b =
        ⟨500, some "Internal server error", store, []⟩)
  ∧ (∀ fields, req.parsed = some (.obj fields) →
      (!truthy (getField (.obj fields) "note_id") ||
        !truthy (getField (.obj fields) "content") ||
        !truthy (getField (.obj fields) "user_id")) = true →
      handler req store notesTable b =
        ⟨400, some "Missing note_id, content, or user_id", store, []⟩)
  ∧ (∀ (fields : List (String × Json)) (note_id content user_id : String),
      req.parsed = some (.obj fields) →
      getField (.obj fields) "note_id" = some (.str note_id) →
      getField (.obj fields) "content" = some (.str content) →
      getField (.obj fields) "user_id" = some (.str user_id) →
      note_id ≠ "" → content ≠ "" → user_id ≠ "" →
      handler req store notesTable b =
        syncNote note_id user_id content store notesTable b)
  ∧ (∀ note_id user_id content : String,
      (syncNote note_id user_id content store notesTable okBehavior).links =
        store.filter (fun e => e.source_note_id ≠ note_id) ++
          ((syncNote note_id user_id content store notesTable
              okBehavior).insertedLinks).map
            (fun l => Edge.mk l.source_note_id l.target_note_id)) := by
  have hbt' : (req.bodyText == "") = false := beq_eq_false_iff_ne.mpr hbt
  refine ⟨?_, ?_, ?_, ?_, ?_, ?_⟩
  · intro hp
    unfold handler
    rw [hm, if_neg (by decide), if_neg (by decide), hb, if_neg (by decide),
      hct, if_neg (by decide), hbt', if_neg (by decide), hp]
  · intro j hp hobj hnull
    unfold handler
    rw [hm, if_neg (by decide), if_neg (by decide), hb, if_neg (by decide),
      hct, if_neg (by decide), hbt', if_neg (by decide), hp]
    match j, hobj, hnull with
    | .bool v, _, _ => simp [getField, truthy]
    | .num v, _, _ => simp [getField, truthy]
    | .str v, _, _ => simp [getField, truthy]
    | .arr v, _, _ => simp [getField, truthy]
    | .obj fields, hobj, _ => exact absurd rfl (hobj fields)
    | .null, _, hnull => exact absurd rfl hnull
  · intro hp
    unfold handler
    rw [hm, if_neg (by decide), if_neg (by decide), hb, if_neg (by decide),
      hct, if_neg (by decide), hbt', if_neg (by decide), hp]
  · intro fields hp htr
    unfold handler
    rw [hm, if_neg (by decide), if_neg (by decide), hb, if_neg (by decide),
      hct, if_neg (by decide), hbt', if_neg (by decide), hp]
    dsimp only
    rw [if_pos htr]
  · intro fields note_id content user_id hp hn hc hu hnn hcn hun
    unfold handler
    rw [hm, if_neg (by decide), if_neg (by decide), hb, if_neg (by decide),
      hct, if_neg (by decide), hbt', if_neg (by decide), hp]
    dsimp only
    rw [hn, hc, hu]
    rw [if_neg (by simp [truthy, hnn, hcn, hun])]
  · intro note_id user_id content
    rw [syncNote_ok]
    simp only [List.map_map]
    rfl

/-- Witness for the amended claim C9 theorem at concrete requests: a number body
is rejected 400, an unparsable body is rejected 400, and a well-formed
payload runs the synchronization body. -/
theorem handler_validation_witness :
    handler ⟨"POST", true, "application/json", "42", some (.num 42)⟩ [] []
        okBehavior =
      ⟨400, some "Missing note_id, content, or user_id", [], []⟩
  ∧ handler ⟨"POST", true, "application/json", "x", none⟩ [] [] okBehavior =
      ⟨400, some "Invalid JSON payload", [], []⟩
  ∧ handler ⟨"POST", true, "application/json", "x",
        some (.obj [("note_id", .str "n"), ("content", .str "[[a]]"),
          ("user_id", .str "u")])⟩ [] [] okBehavior =
      syncNote "n" "u" "[[a]]" [] [] okBehavior :=
  ⟨(handler_validation ⟨"POST", true, "application/json", "42", some (.num 42)⟩
      [] [] okBehavior rfl rfl (by decide) (by decide)).2.1 (.num 42) rfl
      (fun fields h => Json.noConfusion h) (fun h => Json.noConfusion h),
   (handler_validation ⟨"POST", true, "application/json", "x", none⟩
      [] [] okBehavior rfl rfl (by decide) (by decide)).1 rfl,
   (handler_validation ⟨"POST", true, "application/json", "x",
      some (.obj [("note_id", .str "n"), ("content", .str "[[a]]"),
        ("user_id", .str "u")])⟩ [] [] okBehavior rfl rfl (by decide)
      (by decide)).2.2.2.2.1
      [("note_id", .str "n"), ("content", .str "[[a]]"), ("user_id", .str "u")]
      "n" "[[a]]" "u" rfl rfl rfl rfl (by decide) (by decide) (by decide)⟩

/-- Claim C10 is confirmed: a request whose `content` field is present but equal
to the empty string is caught by the falsiness check and rejected 400 with
the missing-field error, with the store untouched — so clearing a note's
content to empty never deletes its previously stored outgoing edges through
this entry point. -/
theorem empty_content_rejected (note_id user_id ct text : String)
    (store : List Edge) (notesTable : List NoteRow) (b : StoreBehavior)
    (fields : List (String × Json))
    (h1 : note_id ≠ "") (h2 : user_id ≠ "")
    (hct : strIncludes ct "application/json" = true) (ht : text ≠ "")
    (hn : getField (.obj fields) "note_id" = some (.str note_id))
    (hc : getField (.obj fields) "content" = some (.str ""))
    (hu : getField (.obj fields) "user_id" = some (.str user_id)) :
    handler ⟨"POST", true, ct, text, some (.obj fields)⟩ store notesTable b =
      ⟨400, some "Missing note_id, content, or user_id", store, []⟩ := by
  have ht' : (text == "") = false := beq_eq_false_iff_ne.mpr ht
  unfold handler
  rw [show (⟨"POST", true, ct, text, some (.obj fields)⟩ : Request).method =
    "POST" from rfl]
  rw [if_neg (by decide), if_neg (by decide)]
  rw [show (⟨"POST", true, ct, text, some (.obj fields)⟩ : Request).hasBody =
    true from rfl]
  rw [if_neg (by decide)]
  rw [show (⟨"POST", true, ct, text, some (.obj fields)⟩ : Request).contentType =
    ct from rfl, hct, if_neg (by decide)]
  rw [show (⟨"POST", true, ct, text, some (.obj fields)⟩ : Request).bodyText =
    text from rfl, ht', if_neg (by decide)]
  rw [show (⟨"POST", true, ct, text, some (.obj fields)⟩ : Request).parsed =
    some (.obj fields) from rfl]
  dsimp only
  rw [if_pos (by simp [hc, truthy])]

/-- Witness for the claim C10 theorem at a concrete request. -/
theorem empty_content_rejected_witness :
    handler ⟨"POST", true, "application/json", "x",
        some (.obj [("note_id", .str "n"), ("content", .str ""),
          ("user_id", .str "u")])⟩ [⟨"n", "X"⟩] [] okBehavior =
      ⟨400, some "Missing note_id, content, or user_id", [⟨"n", "X"⟩], []⟩ :=
  empty_content_rejected "n" "u" "application/json" "x" [⟨"n", "X"⟩] []
    okBehavior [("note_id", .str "n"), ("content", .str ""), ("user_id", .str "u")]
    (by decide) (by decide) (by decide) (by decide) rfl rfl rfl

end SecondBrain
